import Mathlib

/-!
Verification development for the pr-writer agent of the JARVIS repository.

Shallow embedding of:
- `src/agents/pr-writer/nodes/pr_creator.py`   (unified-diff parse/apply, publish transaction)
- `src/agents/pr-writer/nodes/file_locator.py` (two-strategy file locator)
- `src/agents/pr-writer/nodes/code_reader.py`  (source loader with truncation)
- `src/agents/pr-writer/nodes/patch_generator.py` (diff-block extraction)

Python strings are modelled as Lean `String` (a list of characters); Python
`dict`s are modelled as association lists with insertion-order semantics
(assignment to an existing key updates in place, new keys append), matching
CPython's ordered dicts. Subprocess and network collaborators are modelled as
explicit oracles supplied as parameters.
-/

namespace JARVIS

/-! ### Python string primitives -/

/-- ASCII whitespace as recognised by Python's `\s` and `str.strip()`
(space, tab, newline, carriage return, vertical tab, form feed). -/
def pyIsSpace (c : Char) : Bool :=
  c = ' ' || c = '\t' || c = '\n' || c = '\r' || c = '\x0b' || c = '\x0c'

/-- Python `s.strip()`: remove leading and trailing whitespace. -/
def pyStrip (s : String) : String :=
  ⟨((s.data.dropWhile pyIsSpace).reverse.dropWhile pyIsSpace).reverse⟩

/-- Python `s[1:]`. -/
def pyDrop1 (s : String) : String := ⟨s.data.drop 1⟩

/-- Python `s.startswith(c)` for a single-character prefix `c`
(the only form used by the diff applier). -/
def pyStartsWith1 (s : String) (c : Char) : Bool := s.data.head? = some c

/-- Python substring test `needle in hay`. -/
def containsSub : List Char → List Char → Bool
  | h, n =>
    if n.isPrefixOf h then true
    else
      match h with
      | [] => false
      | _ :: t => containsSub t n

/-- Python `hay.__contains__(needle)` on strings. -/
def strContains (hay needle : String) : Bool := containsSub hay.data needle.data

/-- Python `str.splitlines(keepends=True)` over a character list.
Covers the terminators `\n`, `\r`, `\r\n`, `\x0b`, `\x0c` (the rare
Unicode-only terminators never occur in the inputs considered here). -/
def splitLinesAux : Nat → List Char → List Char → List String
  | 0, cs, acc => if acc = [] && cs = [] then [] else [⟨acc.reverse ++ cs⟩]
  | fuel + 1, cs, acc =>
    match cs with
    | [] => if acc = [] then [] else [⟨acc.reverse⟩]
    | '\r' :: '\n' :: rest => ⟨acc.reverse ++ ['\r', '\n']⟩ :: splitLinesAux fuel rest []
    | c :: rest =>
      if c = '\n' || c = '\r' || c = '\x0b' || c = '\x0c' then
        ⟨acc.reverse ++ [c]⟩ :: splitLinesAux fuel rest []
      else
        splitLinesAux fuel rest (c :: acc)

/-- `splitlines(keepends=True)` on a character list.  The fuel `cs.length`
is exact: every recursive step consumes at least one character. -/
def pySplitLinesKeepL (cs : List Char) : List String := splitLinesAux cs.length cs []

/-- `splitlines(keepends=True)` on a string. -/
def pySplitLinesKeep (s : String) : List String := pySplitLinesKeepL s.data

/-- Value of a digit run, as computed by Python `int()`. -/
def digitsToNat (ds : List Char) : Nat :=
  ds.foldl (fun a c => a * 10 + (c.toNat - 48)) 0

/-- Greedy `p+`: maximal nonempty run of characters satisfying `p`;
returns the run and the remaining suffix. -/
def eatRun1 (p : Char → Bool) (cs : List Char) : Option (List Char × List Char) :=
  let run := cs.takeWhile p
  if run.isEmpty then none else some (run, cs.dropWhile p)

/-! ### Hunk-header regex
`^@@\s+-(\d+)(?:,(\d+))?\s+\+(\d+)(?:,(\d+))?\s+@@` with `re.MULTILINE`. -/

/-- Parsed groups of one hunk header of `_HUNK_HEADER_RE`. -/
structure HunkHeader where
  origStart : Nat
  origCount : Option Nat
  newStart : Nat
  newCount : Option Nat
  deriving Repr, DecidableEq

/-- The optional group `(?:,(\d+))?` (greedy; falls back to the empty match
when no digit follows the comma, exactly as the regex engine does). -/
def eatOptCommaDigits (cs : List Char) : Option Nat × List Char :=
  match cs with
  | ',' :: rest =>
    match eatRun1 Char.isDigit rest with
    | some (ds, r) => (some (digitsToNat ds), r)
    | none => (none, cs)
  | _ => (none, cs)

/-- Match `_HUNK_HEADER_RE` at the head of `cs` (the `^` anchor is checked by
the caller); on success returns the captured groups and the suffix following
the closing `@@` — note the match ends at the closing `@@`, not at the end of
the header line. -/
def matchHunkHeader (cs : List Char) : Option (HunkHeader × List Char) :=
  match cs with
  | '@' :: '@' :: rest =>
    match eatRun1 pyIsSpace rest with
    | none => none
    | some (_, r1) =>
      match r1 with
      | '-' :: r2 =>
        match eatRun1 Char.isDigit r2 with
        | none => none
        | some (d1, r3) =>
          let (oc, r4) := eatOptCommaDigits r3
          match eatRun1 pyIsSpace r4 with
          | none => none
          | some (_, r5) =>
            match r5 with
            | '+' :: r6 =>
              match eatRun1 Char.isDigit r6 with
              | none => none
              | some (d2, r7) =>
                let (nc, r8) := eatOptCommaDigits r7
                match eatRun1 pyIsSpace r8 with
                | none => none
                | some (_, r9) =>
                  match r9 with
                  | '@' :: '@' :: r10 =>
                    some (⟨digitsToNat d1, oc, digitsToNat d2, nc⟩, r10)
                  | _ => none
            | _ => none
      | _ => none
  | _ => none

/-- Scan for the leftmost hunk-header match at a `^` position (string start or
just after a newline), as `finditer` does.  Returns the text before the match,
the parsed header, and the suffix after the match. -/
def findFirstHunk : List Char → Bool → Option (List Char × HunkHeader × List Char)
  | [], _ => none
  | c :: cs, atStart =>
    if atStart then
      match matchHunkHeader (c :: cs) with
      | some (h, rem) => some ([], h, rem)
      | none => (findFirstHunk cs (c = '\n')).map fun x => (c :: x.1, x.2.1, x.2.2)
    else
      (findFirstHunk cs (c = '\n')).map fun x => (c :: x.1, x.2.1, x.2.2)

/-- Successive non-overlapping matches after the first one: pairs each header
with its body (the text up to the next match's start, or to the end).  The
fuel is an upper bound on the number of remaining matches; every match
consumes at least the two `@` characters, so `cs.length` always suffices. -/
def hunkListAux : Nat → HunkHeader → List Char → List (HunkHeader × List Char)
  | 0, h, rest => [(h, rest)]
  | fuel + 1, h, rest =>
    match findFirstHunk rest false with
    | none => [(h, rest)]
    | some (pre, h2, rest2) => (h, pre) :: hunkListAux fuel h2 rest2

/-- All `(header, body)` pairs of a patch block, in `finditer` order; the body
of a hunk is the slice from its match end to the next match start (so it
includes the remainder of the header line after the closing `@@`). -/
def pyHunks (cs : List Char) : List (HunkHeader × List Char) :=
  match findFirstHunk cs true with
  | none => []
  | some (_, h, rest) => hunkListAux cs.length h rest

/-! ### Hunk-body classification and slice assignment -/

/-- The body loop of `_apply_patch_to_content`: `+` lines keep the remainder,
`-` lines are dropped, and every other line is kept — with its first character
stripped only when that character is a space. -/
def newLinesOf : List String → List String
  | [] => []
  | l :: ls =>
    if pyStartsWith1 l '+' then pyDrop1 l :: newLinesOf ls
    else if pyStartsWith1 l '-' then newLinesOf ls
    else (if pyStartsWith1 l ' ' then pyDrop1 l else l) :: newLinesOf ls

/-- Resolve one Python slice index against a list of length `n`
(negative indices count from the end; everything clamps into `[0, n]`). -/
def pySliceIdx (i : Int) (n : Nat) : Nat :=
  if i < 0 then (max (i + n) 0).toNat else min i.toNat n

/-- Python slice assignment `l[i:j] = new`. -/
def pySetSlice {α : Type} (l : List α) (i j : Int) (new : List α) : List α :=
  let n := l.length
  let a := pySliceIdx i n
  let b := max a (pySliceIdx j n)
  l.take a ++ new ++ l.drop b

/-- `_apply_patch_to_content(original, patch_block)` from `pr_creator.py`:
split the original with `splitlines(keepends=True)`, then for each hunk found
by `_HUNK_HEADER_RE.finditer`, classify its body lines, splice them in at
`(orig_start - 1) + offset` replacing `orig_count` lines (default 1), and
advance the offset by the surplus of emitted lines. -/
def apply_patch_to_content (original patch_block : String) : String :=
  let lines := pySplitLinesKeep original
  let step := fun (st : List String × Int) (hb : HunkHeader × List Char) =>
    let origStart : Int := (hb.1.origStart : Int) - 1
    let origCount : Nat := hb.1.origCount.getD 1
    let newLines := newLinesOf (pySplitLinesKeepL hb.2)
    let insertAt : Int := origStart + st.2
    (pySetSlice st.1 insertAt (insertAt + origCount) newLines,
     st.2 + newLines.length - origCount)
  let out := (pyHunks patch_block.data).foldl step (lines, 0)
  String.join out.1

/-! ### File-header regex and per-file splitting
`_FILE_HEADER_RE = ^---\s+(?:a/)?(.+)$` (`re.MULTILINE`), used by
`_parse_diff_files` (via `finditer`) and `_split_diff_by_file` (via `match`
on each section produced by `re.split(r"(?=^--- )", patch, re.MULTILINE)`). -/

/-- Match `_FILE_HEADER_RE` anchored at the head of `cs`; returns group 1
(the path text up to the end of the line).  The optional `a/` prefix
backtracks to the empty alternative when taking it would leave `(.+)` empty,
exactly as the regex engine does.  (Backtracking of `\s+` into the captured
path is possible only for headers whose path consists of whitespace; such
degenerate headers do not occur in the statements below.) -/
def matchFileHeader (cs : List Char) : Option String :=
  match cs with
  | '-' :: '-' :: '-' :: rest =>
    match eatRun1 pyIsSpace rest with
    | none => none
    | some (_, r1) =>
      let withA : Option (List Char) :=
        match r1 with
        | 'a' :: '/' :: r =>
          let c := r.takeWhile (fun c => c ≠ '\n')
          if c.isEmpty then none else some c
        | _ => none
      match withA with
      | some c => some ⟨c⟩
      | none =>
        let c := r1.takeWhile (fun c => c ≠ '\n')
        if c.isEmpty then none else some ⟨c⟩
  | _ => none

/-- Does the text at this position start a new file section (`(?=^--- )`,
with the `^` established by the caller)? -/
def isFileHeaderStart : List Char → Bool
  | '-' :: '-' :: '-' :: ' ' :: _ => true
  | _ => false

/-- `re.split(r"(?=^--- )", patch, flags=re.MULTILINE)`: cut the text before
every line that starts with `--- `.  A match at position 0 yields a leading
empty section, as in CPython.  Fuel `cs.length` is exact (one character is
consumed per step). -/
def splitSectionsAux : Nat → List Char → List Char → Bool → List (List Char)
  | 0, cs, acc, _ => [acc.reverse ++ cs]
  | fuel + 1, cs, acc, atStart =>
    match cs with
    | [] => [acc.reverse]
    | c :: rest =>
      if atStart && isFileHeaderStart (c :: rest) then
        acc.reverse :: splitSectionsAux fuel rest [c] false
      else
        splitSectionsAux fuel rest (c :: acc) (c = '\n')

/-- All sections of the patch, split before each `--- ` line. -/
def pySplitSections (cs : List Char) : List (List Char) :=
  splitSectionsAux cs.length cs [] true

/-- Ordered-dict assignment `d[k] = v`: updates in place when the key exists
(keeping its position), appends otherwise. -/
def dictSet {β : Type} (d : List (String × β)) (k : String) (v : β) :
    List (String × β) :=
  if d.any (fun kv => kv.1 = k) then
    d.map (fun kv => if kv.1 = k then (kv.1, v) else kv)
  else d ++ [(k, v)]

/-- One step of `_split_diff_by_file`: ignore a section without a `--- `
header or whose (stripped) old-file path is `/dev/null`; otherwise store the
section under that path. -/
def splitStep (blocks : List (String × String)) (sec : List Char) :
    List (String × String) :=
  match matchFileHeader sec with
  | none => blocks
  | some path =>
    let p := pyStrip path
    if p = "/dev/null" then blocks else dictSet blocks p ⟨sec⟩

/-- `_split_diff_by_file(patch)`: map each section's old-file path (from its
`--- ` header, stripped) to the section text, skipping sections without a
header and sections whose old-file path is `/dev/null`. -/
def split_diff_by_file (patch : String) : List (String × String) :=
  (pySplitSections patch.data).foldl splitStep []

/-- `list(dict.fromkeys(paths))`: order-preserving deduplication. -/
def pyDedup (l : List String) : List String :=
  l.foldl (fun acc x => if acc.contains x then acc else acc ++ [x]) []

/-- One step of the `_parse_diff_files` scan: collect the stripped path of a
`--- ` header line unless it is `/dev/null`. -/
def parseStep (acc : List String) (ln : String) : List String :=
  match matchFileHeader ln.data with
  | none => acc
  | some path =>
    let p := pyStrip path
    if p = "/dev/null" then acc else acc ++ [p]

/-- `_parse_diff_files(patch)`: the old-file paths of every `--- ` header
line, `/dev/null` excluded, deduplicated preserving first occurrence. -/
def parse_diff_files (patch : String) : List String :=
  pyDedup ((pySplitLinesKeep patch).foldl parseStep [])

/-! ### Publish transaction (`pr_creator_node`)
The GitHub platform is an explicit oracle; its side effects (created
branches, committed files, opened PR) are tracked in a `GhState` record. -/

/-- A `GithubException`: HTTP status plus the message of its data payload. -/
structure GhError where
  status : Nat
  message : String
  deriving Repr, DecidableEq

/-- Result of `repo.get_contents(path, ref)`: a file (sha and decoded
content), a directory listing, or a `GithubException`. -/
inductive GetFileRes
  | file (sha : String) (content : String)
  | dir
  | err (e : GhError)

/-- The remote platform as seen through the calls `pr_creator_node` makes.
`writes` scripts the outcomes of successive create/update-file calls in
order; an exhausted script means the call succeeds. -/
structure Platform where
  headSha : Except GhError String
  createRefRes : Option GhError
  getFile : String → GetFileRes
  writes : List (Option GhError)
  pullRes : Except GhError String

/-- External repository state mutated by the transaction. -/
structure GhState where
  branches : List String
  committed : List (String × String)
  prOpened : Option String
  deriving Repr, DecidableEq

/-- What the node returns to the pipeline. -/
structure NodeResult where
  pr_url : Option String
  logs : List String
  deriving Repr, DecidableEq

/-- The failure log produced by the `except GithubException` handler:
`f"GitHub API error {exc.status}: {exc.data.get('message', str(exc))}"`. -/
def ghErrorMsg (e : GhError) : String :=
  "GitHub API error " ++ toString e.status ++ ": " ++ e.message

/-- `_get_file_sha_and_content`: directories give `(None, "")`, a 404 gives
`(None, "")`, any other `GithubException` propagates. -/
def get_file_sha_and_content (r : GetFileRes) :
    Except GhError (Option String × String) :=
  match r with
  | .file sha content => .ok (some sha, content)
  | .dir => .ok (none, "")
  | .err e => if e.status = 404 then .ok (none, "") else .error e

/-- The per-file commit loop of `pr_creator_node`: for each block fetch the
current content, patch it, and write it to the branch.  A `GithubException`
aborts the loop, leaving the commits made so far in place. -/
def commitLoop (pf : Platform) (blocks : List (String × String))
    (writes : List (Option GhError)) (st : GhState) :
    Except (GhError × GhState) GhState :=
  match blocks with
  | [] => .ok st
  | (path, block) :: rest =>
    match get_file_sha_and_content (pf.getFile path) with
    | .error e => .error (e, st)
    | .ok (_, content) =>
      let patched := apply_patch_to_content content block
      match writes with
      | some e :: _ => .error (e, st)
      | wr =>
        commitLoop pf rest wr.tail
          { st with committed := st.committed ++ [(path, patched)] }

/-- `pr_creator_node`: skip on an empty patch or missing configuration, else
create a branch named from the issue number and timestamp, commit every file
block, and open the pull request.  Any `GithubException` is caught and
reported as a single log line; nothing is retried or rolled back. -/
def pr_creator_node (pf : Platform) (token repoName : Option String)
    (now issue_number : Nat) (patch : String) : NodeResult × GhState :=
  if pyStrip patch = "" then
    (⟨none, ["PRCreator skipped: patch is empty"]⟩, ⟨[], [], none⟩)
  else if token.isNone || repoName.isNone then
    (⟨none, ["PRCreator error: GitHub config missing TOKEN=" ++
             (if token.isSome then "set" else "missing") ++
             " REPO=" ++ (match repoName with | some r => r | none => "None")]⟩,
     ⟨[], [], none⟩)
  else
    match pf.headSha with
    | .error e => (⟨none, [ghErrorMsg e]⟩, ⟨[], [], none⟩)
    | .ok _ =>
      match pf.createRefRes with
      | some e => (⟨none, [ghErrorMsg e]⟩, ⟨[], [], none⟩)
      | none =>
        match commitLoop pf (split_diff_by_file (pyStrip patch)) pf.writes
            ⟨["ai-fix/issue-" ++ toString issue_number ++ "-" ++ toString now], [], none⟩ with
        | .error (e, st) => (⟨none, [ghErrorMsg e]⟩, st)
        | .ok st =>
          match pf.pullRes with
          | .error e => (⟨none, [ghErrorMsg e]⟩, st)
          | .ok url =>
            (⟨some url, ["PR created: " ++ url]⟩, { st with prOpened := some url })

/-! ### File locator (`file_locator.py`)
Scores live in a `defaultdict(int)` modelled as an ordered association list;
the ripgrep subprocess is an oracle returning either a failure mode or its
parsed line-delimited JSON output. -/

/-- Ordered score dictionary: `{file_path: score}` in first-touch order. -/
abbrev ScoreDict := List (String × Nat)

/-- `d[k] += v` on a `defaultdict(int)`: update in place, or append `(k, v)`
when the key is new. -/
def dAdd (d : ScoreDict) (k : String) (v : Nat) : ScoreDict :=
  if d.any (fun kv => kv.1 = k) then
    d.map (fun kv => if kv.1 = k then (kv.1, kv.2 + v) else kv)
  else d ++ [(k, v)]

/-- `d[k]` with the defaultdict default of 0. -/
def dGet (d : ScoreDict) (k : String) : Nat := ((d.lookup k).getD 0)

/-- One parsed line of `rg --json` output: either a decoded JSON object
(whose only relevant shape is a `match` event carrying a path) or a line
that fails to decode. -/
inductive RgLine
  | matchEv (path : String)
  | otherEv
  | badJson

/-- Outcome of one `rg` subprocess invocation. -/
inductive RgOutcome
  | noProjectDir
  | missing
  | timeout
  | ok (lines : List RgLine)

/-- `_rg_search(term, project_path)`: a missing project directory, a missing
`rg` binary, or a timeout all yield an empty dict; otherwise count one hit
per `match` event, keyed by the event's path. -/
def rg_search (outcome : RgOutcome) : ScoreDict :=
  match outcome with
  | .noProjectDir => []
  | .missing => []
  | .timeout => []
  | .ok lines =>
    lines.foldl
      (fun hits l =>
        match l with
        | .matchEv p => dAdd hits p 1
        | .otherEv => hits
        | .badJson => hits)
      []

/-- `_index_search(symbols, index)`: one point per matched symbol per
defining file, in symbol order then index-entry order. -/
def index_search (symbols : List String)
    (index : List (String × List String)) : ScoreDict :=
  symbols.foldl
    (fun hits sym =>
      ((index.lookup sym).getD []).foldl (fun h p => dAdd h p 1) hits)
    []

/-- `path.replace("\\", "/")`. -/
def normSlash (s : String) : String :=
  ⟨s.data.map (fun c => if c = '\\' then '/' else c)⟩

/-- Strategy 1 of `file_locator_node`: ripgrep over the deduplicated
symbols-then-keywords terms, accumulating per-file match counts. -/
def rgPass (rg : String → RgOutcome) (terms : List String) (d : ScoreDict) :
    ScoreDict :=
  terms.foldl
    (fun sc term => (rg_search (rg term)).foldl (fun s pc => dAdd s pc.1 pc.2) sc)
    d

/-- Strategy 2 of `file_locator_node`: symbol-index hits weighted ×2,
run only when symbols are present. -/
def indexPass (symbols : List String) (idx : List (String × List String))
    (d : ScoreDict) : ScoreDict :=
  if symbols ≠ [] then
    (index_search symbols idx).foldl (fun s pc => dAdd s pc.1 (pc.2 * 2)) d
  else d

/-- The path-hint bonus of `file_locator_node`: +1 to every already-scored
file whose normalised path contains the normalised hint as a substring
(hints never introduce new files). -/
def hintPass (hints : List String) (d : ScoreDict) : ScoreDict :=
  hints.foldl
    (fun sc hint =>
      sc.map (fun pv =>
        if containsSub (normSlash pv.1).data (normSlash hint).data
        then (pv.1, pv.2 + 1) else pv))
    d

/-- The score aggregation of `file_locator_node`: the three passes applied
in source order to the empty score dict. -/
def locatorScores (rg : String → RgOutcome)
    (index : List (String × List String))
    (keywords symbols file_hints : List String) : ScoreDict :=
  hintPass file_hints
    (indexPass symbols index (rgPass rg (pyDedup (symbols ++ keywords)) []))

/-- Stable insertion into a descending-by-score list: the new element goes
after every element with a strictly greater score and before the first
element whose score is less than or equal to its own. -/
def insertDesc (x : String × Nat) : List (String × Nat) → List (String × Nat)
  | [] => [x]
  | y :: ys => if y.2 > x.2 then y :: insertDesc x ys else x :: y :: ys

/-- `sorted(keys, key=score, reverse=True)` is a stable descending sort;
a stable sort is uniquely determined by the key and the input order, so it
is embedded as stable insertion sort. -/
def pySortedDesc : List (String × Nat) → List (String × Nat)
  | [] => []
  | x :: xs => insertDesc x (pySortedDesc xs)

/-- `file_locator_node`: aggregate the strategy scores, sort descending by
score (stable), and keep the top `maxFiles` paths. -/
def file_locator_node (rg : String → RgOutcome)
    (index : List (String × List String))
    (keywords symbols file_hints : List String) (maxFiles : Nat) : List String :=
  ((pySortedDesc (locatorScores rg index keywords symbols file_hints)).map
    (fun pv => pv.1)).take maxFiles

/-! ### Source loader (`code_reader.py`) -/

/-- A located path as the filesystem presents it to `code_reader_node`:
not a regular file, a file whose `open`/`read` raises `OSError`, or a
readable file with the given content. -/
inductive FileState
  | absent
  | unreadable
  | readable (content : String)

/-- `_TRUNCATION_MARKER` from `code_reader.py`. -/
def TRUNCATION_MARKER : String := "\n\n... [TRUNCATED: file exceeds size limit] ...\n"

/-- One iteration of the `code_reader_node` loop: a missing or unreadable
path goes to the skipped list; a readable file is read up to `maxBytes + 1`
characters (`fh.read(MAX_FILE_BYTES + 1)`) and truncated to `maxBytes` plus
the marker when it exceeds the limit. -/
def readStep (fs : String → FileState) (maxBytes : Nat)
    (acc : List (String × String) × List String) (path : String) :
    List (String × String) × List String :=
  match fs path with
  | .absent => (acc.1, acc.2 ++ [path])
  | .unreadable => (acc.1, acc.2 ++ [path])
  | .readable content =>
    let raw : List Char := content.data.take (maxBytes + 1)
    let raw : String :=
      if raw.length > maxBytes then ⟨raw.take maxBytes ++ TRUNCATION_MARKER.data⟩
      else ⟨raw⟩
    (dictSet acc.1 path raw, acc.2)

/-- `code_reader_node`: read every located file, skipping missing and
unreadable paths.  Returns the `file_contents` dict and the skipped list. -/
def code_reader_node (fs : String → FileState) (maxBytes : Nat)
    (located : List String) : List (String × String) × List String :=
  located.foldl (readStep fs maxBytes) ([], [])

/-! ### Patch extraction (`patch_generator.py`)
`_DIFF_RE = (---\s.+\n\+\+\+\s.+\n(?:@@.+@@.*\n(?:[+\- @\\].*\n?)*)+)`,
used via `.search` on the stripped response text. -/

/-- `---\s.+\n` (and its `+++` twin): one whitespace character, then a
nonempty run of non-newline characters, then a newline.  Deterministic: `.`
cannot cross the newline, so the greedy `.+` always ends at the line end. -/
def eatMarkerLine (cs : List Char) : Option (List Char) :=
  match cs with
  | c :: rest =>
    if pyIsSpace c then
      let line := rest.takeWhile (fun c => c ≠ '\n')
      if line.isEmpty then none
      else
        match rest.drop line.length with
        | '\n' :: r => some r
        | _ => none
    else none
  | [] => none

/-- `@@.+@@.*\n`: a line starting with `@@` that contains a second `@@`
with at least one character in between, ending in a newline; the match
always extends to the end of the line. -/
def eatHunkHeaderLine (cs : List Char) : Option (List Char) :=
  match cs with
  | '@' :: '@' :: rest =>
    let line := rest.takeWhile (fun c => c ≠ '\n')
    if containsSub (line.drop 1) ['@', '@'] then
      match rest.drop line.length with
      | '\n' :: r => some r
      | _ => none
    else none
  | _ => none

/-- `(?:[+\- @\\].*\n?)*`: greedily consume lines whose first character is
`+`, `-`, space, `@` or backslash (a final line without a newline is also
consumed).  Fuel `cs.length` is exact. -/
def eatBodyLines : Nat → List Char → List Char
  | 0, cs => cs
  | fuel + 1, cs =>
    match cs with
    | [] => []
    | c :: rest =>
      if c = '+' || c = '-' || c = ' ' || c = '@' || c = '\\' then
        let line := rest.takeWhile (fun c => c ≠ '\n')
        match rest.drop line.length with
        | '\n' :: r => eatBodyLines fuel r
        | other => other
      else cs

/-- `(?:@@.+@@.*\n(?:[+\- @\\].*\n?)*)+`: one or more hunk groups.  After a
group's body lines no further header can start (a header's `@` is itself a
body-line character), so the greedy repetition needs no backtracking. -/
def eatHunkGroups : Nat → List Char → Option (List Char)
  | 0, _ => none
  | fuel + 1, cs =>
    match eatHunkHeaderLine cs with
    | none => none
    | some r1 =>
      let r2 := eatBodyLines r1.length r1
      match eatHunkGroups fuel r2 with
      | some r3 => some r3
      | none => some r2

/-- Attempt to match `_DIFF_RE` at the head of `cs`; returns the suffix
after the match. -/
def matchDiffAt (cs : List Char) : Option (List Char) :=
  match cs with
  | '-' :: '-' :: '-' :: r1 =>
    match eatMarkerLine r1 with
    | none => none
    | some r2 =>
      match r2 with
      | '+' :: '+' :: '+' :: r3 =>
        match eatMarkerLine r3 with
        | none => none
        | some r4 => eatHunkGroups r4.length r4
      | _ => none
  | _ => none

/-- `_DIFF_RE.search(raw)`: try every start position left to right and
return `group(0)` of the first match. -/
def searchDiff : List Char → Option (List Char)
  | [] => none
  | c :: rest =>
    match matchDiffAt (c :: rest) with
    | some remaining =>
      some ((c :: rest).take ((c :: rest).length - remaining.length))
    | none => searchDiff rest

/-- The extraction step of `patch_generator_node`: keep `group(0).strip()`
of the first diff block when one is found, else pass the text through. -/
def extractPatch (raw : String) : String :=
  match searchDiff raw.data with
  | some m => pyStrip ⟨m⟩
  | none => raw

/-- `patch_generator_node`: empty `file_contents` short-circuits to an empty
patch; otherwise strip the model response and extract the diff block. -/
def patch_generator_node (file_contents : List (String × String))
    (response : String) : String × List String :=
  if file_contents = [] then
    ("", ["PatchGenerator skipped: no file contents"])
  else
    let raw := pyStrip response
    let patch := extractPatch raw
    (patch, ["Patch generated (" ++ toString patch.data.length ++ " chars)"])

/-! ### Auxiliary definitions used by the statements below -/

/-- The content `pr_creator_node` fetches for a path before patching
(empty when the platform call would raise, in which case the loop aborts
before using it). -/
def fetchedContent (pf : Platform) (p : String) : String :=
  match get_file_sha_and_content (pf.getFile p) with
  | .ok sc => sc.2
  | .error _ => ""

/-- The keys of a score dictionary are pairwise distinct. -/
def UniqKeys (d : ScoreDict) : Prop := (d.map Prod.fst).Nodup

/-- Total value carried by entries with key `p` (used to reason about folds
over dictionaries that may, in general, repeat keys). -/
def sumVals (entries : List (String × Nat)) (p : String) : Nat :=
  (entries.map (fun pc => if pc.1 = p then pc.2 else 0)).sum

/-- A platform whose writes succeed, then fail on the second file with a
500, used to exercise the partial-failure path of the publish transaction. -/
def failSecondPlatform : Platform :=
  { headSha := .ok "abc123"
    createRefRes := none
    getFile := fun _ => .file "sha0" "a\nb\n"
    writes := [none, some ⟨500, "boom"⟩, none]
    pullRes := .ok "https://example.com/pr/1" }

/-- A platform on which every call succeeds. -/
def allOkPlatform : Platform :=
  { headSha := .ok "abc123"
    createRefRes := none
    getFile := fun _ => .file "sha0" "a\nb\n"
    writes := []
    pullRes := .ok "https://example.com/pr/1" }

/-- A three-file unified diff. -/
def threeFilePatch : String :=
  "--- a/f1\n+++ b/f1\n@@ -1,1 +1,1 @@\n-a\n+x\n--- a/f2\n+++ b/f2\n@@ -1,1 +1,1 @@\n-a\n+y\n--- a/f3\n+++ b/f3\n@@ -1,1 +1,1 @@\n-a\n+z\n"

/-- A unified diff creating a brand-new file (old path `/dev/null`). -/
def devNullPatch : String :=
  "--- /dev/null\n+++ b/new.ts\n@@ -0,0 +1,2 @@\n+hello\n+world\n"

/-- The repository state a commit-loop result carries (final state on
success, state reached at the raising call on failure). -/
def loopState (r : Except (GhError × GhState) GhState) : GhState :=
  match r with
  | .ok st => st
  | .error es => es.2

/-! ## Claim theorems -/

/-- C1: the spec's Scenario B says applying hunk `@@ -1,1 +1,2 @@` (remove
`a`, emit `x`,`y`) to `"a\nb\nc\n"` yields `"x\ny\nb\nc\n"`.  The code does
use the anchor `(orig_start - 1) + offset` and replaces `orig_count` lines,
but the hunk-header regex match ends at the closing `@@`, so the remainder
of the header line — here a lone newline — falls into the hunk body and is
emitted as a context line.  The evaluation shows the actual result is
`"\nx\ny\nb\nc\n"`, contradicting the claim and the applier's own docstring
("handles standard unified diff hunk format"). -/
theorem C1_scenario_b_evaluation :
    apply_patch_to_content "a\nb\nc\n" "@@ -1,1 +1,2 @@\n-a\n+x\n+y\n" = "\nx\ny\nb\nc\n" ∧
    apply_patch_to_content "a\nb\nc\n" "@@ -1,1 +1,2 @@\n-a\n+x\n+y\n" ≠ "x\ny\nb\nc\n" :=
  ⟨rfl, by decide⟩

/-- C2 counterexample: the claim says every non-`+`/non-`-` body line is kept
"with exactly one leading marker character stripped"; on a line whose first
character is a backslash the code strips nothing and keeps it whole. -/
theorem C2_counterexample :
    newLinesOf ["\\ No newline at end of file\n"] = ["\\ No newline at end of file\n"] ∧
    newLinesOf ["\\ No newline at end of file\n"] ≠ [" No newline at end of file\n"] :=
  ⟨rfl, by decide⟩

/-- C2 amended: a body line starting with `+` contributes its remainder,
one starting with `-` is dropped, one starting with a space is kept with the
space stripped, and a line with any other leading character is kept
unchanged (no marker is stripped); the loop processes lines independently. -/
theorem C2_line_classification_amended :
    (∀ rest : List Char, newLinesOf [⟨'+' :: rest⟩] = [⟨rest⟩]) ∧
    (∀ rest : List Char, newLinesOf [⟨'-' :: rest⟩] = []) ∧
    (∀ rest : List Char, newLinesOf [⟨' ' :: rest⟩] = [⟨rest⟩]) ∧
    (∀ (c : Char) (rest : List Char), c ≠ '+' → c ≠ '-' → c ≠ ' ' →
       newLinesOf [⟨c :: rest⟩] = [⟨c :: rest⟩]) ∧
    (∀ lines : List String,
       newLinesOf lines = (lines.map (fun l => newLinesOf [l])).flatten) := by
  refine ⟨?_, ?_, ?_, ?_, ?_⟩
  · intro rest; simp [newLinesOf, pyStartsWith1, pyDrop1]
  · intro rest; simp [newLinesOf, pyStartsWith1]
  · intro rest; simp [newLinesOf, pyStartsWith1, pyDrop1]
  · intro c rest h1 h2 h3
    simp [newLinesOf, pyStartsWith1, h1, h2, h3]
  · intro lines
    induction lines with
    | nil => rfl
    | cons l ls ih =>
      by_cases h1 : pyStartsWith1 l '+'
      · simp [newLinesOf, h1, ih]
      · by_cases h2 : pyStartsWith1 l '-'
        · simp [newLinesOf, h1, h2, ih]
        · simp [newLinesOf, h1, h2, ih]

/-- Witness for C2: the amended classification applied to the concrete line
`"xa\n"`, whose leading character is not a marker. -/
theorem C2_line_classification_amended_witness :
    newLinesOf [⟨'x' :: ['a', '\n']⟩] = [⟨'x' :: ['a', '\n']⟩] :=
  C2_line_classification_amended.2.2.2.1 'x' ['a', '\n']
    (by decide) (by decide) (by decide)

/-- C7: a well-formed diff block inside prose and code fences is extracted
alone (the prose is discarded); when no diff block is found the raw text is
passed through unchanged; and the publish step treats an empty patch as "no
patch produced", returning a skip log without touching the platform. -/
theorem C7_diff_extraction :
    extractPatch "Here is the fix:\n```diff\n--- a/src/foo.ts\n+++ b/src/foo.ts\n@@ -1,2 +1,2 @@\n-old\n+new\n```\nDone!"
      = "--- a/src/foo.ts\n+++ b/src/foo.ts\n@@ -1,2 +1,2 @@\n-old\n+new" ∧
    (∀ raw : String, searchDiff raw.data = none → extractPatch raw = raw) ∧
    extractPatch "I could not produce a diff, sorry."
      = "I could not produce a diff, sorry." ∧
    (∀ pf token repo now issue patch, pyStrip patch = "" →
       pr_creator_node pf token repo now issue patch
         = (⟨none, ["PRCreator skipped: patch is empty"]⟩, ⟨[], [], none⟩)) := by
  refine ⟨rfl, ?_, rfl, ?_⟩
  · intro raw h
    unfold extractPatch
    rw [h]
  · intro pf token repo now issue patch h
    simp [pr_creator_node, h]

/-- Witness for C7: the pass-through and empty-patch branches at concrete
inputs. -/
theorem C7_diff_extraction_witness :
    extractPatch "no diff here" = "no diff here" ∧
    pr_creator_node allOkPlatform (some "t") (some "o/r") 5 3 "  \n "
      = (⟨none, ["PRCreator skipped: patch is empty"]⟩, ⟨[], [], none⟩) :=
  ⟨C7_diff_extraction.2.1 "no diff here" rfl,
   C7_diff_extraction.2.2.2 allOkPlatform (some "t") (some "o/r") 5 3 "  \n " rfl⟩

/-- C10: the diff applier is a total function of its two string arguments;
hunk coordinates beyond the end of the original are absorbed by Python slice
assignment — a start at or past the end appends the emitted lines, and a
range running past the end clamps there — so out-of-range hunks produce a
deterministic result (shown on a concrete drifted hunk) rather than an
error. -/
theorem C10_apply_total_out_of_range :
    (∀ (l : List String) (i : Int) (c : Nat) (new : List String),
       (l.length : Int) ≤ i → pySetSlice l i (i + c) new = l ++ new) ∧
    (∀ (l : List String) (i : Int) (c : Nat) (new : List String),
       0 ≤ i → i.toNat ≤ l.length → (l.length : Int) < i + c →
       pySetSlice l i (i + c) new = l.take i.toNat ++ new) ∧
    apply_patch_to_content "a\n" "@@ -5,2 +5,1 @@\n+z\n" = "a\n\nz\n" := by
  refine ⟨?_, ?_, rfl⟩
  · intro l i c new h
    have h0 : ¬ i < 0 := by omega
    have hic : ¬ i + (c : Int) < 0 := by omega
    have ha : pySliceIdx i l.length = l.length := by
      simp only [pySliceIdx, if_neg h0]; omega
    have hb : pySliceIdx (i + c) l.length = l.length := by
      simp only [pySliceIdx, if_neg hic]; omega
    simp [pySetSlice, ha, hb]
  · intro l i c new h0 h1 h2
    have h0' : ¬ i < 0 := by omega
    have hic : ¬ i + (c : Int) < 0 := by omega
    have ha : pySliceIdx i l.length = i.toNat := by
      simp only [pySliceIdx, if_neg h0']; omega
    have hb : pySliceIdx (i + c) l.length = l.length := by
      simp only [pySliceIdx, if_neg hic]; omega
    simp [pySetSlice, ha, hb, Nat.max_eq_right h1]

/-- Witness for C10: appending behaviour at a concrete out-of-range slice. -/
theorem C10_apply_total_out_of_range_witness :
    pySetSlice ["a", "b"] 7 (7 + 2) ["x"] = ["a", "b", "x"] :=
  C10_apply_total_out_of_range.1 ["a", "b"] 7 2 ["x"] (by decide)

/-! ### Dictionary lemmas -/

theorem mem_keys_dictSet {β : Type} (d : List (String × β)) (k p : String) (v : β) :
    p ∈ (dictSet d k v).map Prod.fst ↔ p ∈ d.map Prod.fst ∨ p = k := by
  unfold dictSet
  by_cases h : d.any (fun kv => kv.1 = k)
  · rw [if_pos h]
    have hk : k ∈ d.map Prod.fst := by
      rcases List.any_eq_true.mp h with ⟨kv, hmem, heq⟩
      simp only [decide_eq_true_eq] at heq
      exact heq ▸ List.mem_map_of_mem Prod.fst hmem
    have hkeys : (d.map (fun kv => if kv.1 = k then (kv.1, v) else kv)).map Prod.fst
        = d.map Prod.fst := by
      rw [List.map_map]
      apply List.map_congr_left
      intro a _
      by_cases ha : a.1 = k <;> simp [ha]
    rw [hkeys]
    constructor
    · exact Or.inl
    · rintro (hp | rfl)
      · exact hp
      · exact hk
  · rw [if_neg h, List.map_append]
    simp

theorem mem_dictSet {β : Type} (d : List (String × β)) (k : String) (v : β)
    (pc : String × β) (h : pc ∈ dictSet d k v) : pc ∈ d ∨ pc.2 = v := by
  unfold dictSet at h
  by_cases hk : d.any (fun kv => kv.1 = k)
  · rw [if_pos hk] at h
    rcases List.mem_map.mp h with ⟨a, ha, heq⟩
    by_cases h1 : a.1 = k
    · right; rw [← heq]; simp [h1]
    · left; rw [← heq]; simp only [if_neg h1]; exact ha
  · rw [if_neg hk] at h
    rcases List.mem_append.mp h with h | h
    · exact Or.inl h
    · right
      simp only [List.mem_singleton] at h
      rw [h]

/-! ### Source-loader lemmas -/

theorem mem_keys_readStep_fold (fs : String → FileState) (maxBytes : Nat)
    (located : List String) :
    ∀ (acc : List (String × String) × List String) (p : String),
      (p ∈ (located.foldl (readStep fs maxBytes) acc).1.map Prod.fst ↔
        p ∈ acc.1.map Prod.fst ∨ (p ∈ located ∧ ∃ c, fs p = .readable c)) := by
  induction located with
  | nil => intro acc p; simp
  | cons path rest ih =>
    intro acc p
    rw [List.foldl_cons, ih]
    show p ∈ (readStep fs maxBytes acc path).1.map Prod.fst ∨ _ ↔ _
    unfold readStep
    cases hf : fs path with
    | absent =>
      constructor
      · rintro (h | ⟨hmem, hc⟩)
        · exact Or.inl h
        · exact Or.inr ⟨List.mem_cons_of_mem _ hmem, hc⟩
      · rintro (h | ⟨hmem, c, hc⟩)
        · exact Or.inl h
        · rcases List.mem_cons.mp hmem with rfl | hmem
          · rw [hf] at hc; cases hc
          · exact Or.inr ⟨hmem, c, hc⟩
    | unreadable =>
      constructor
      · rintro (h | ⟨hmem, hc⟩)
        · exact Or.inl h
        · exact Or.inr ⟨List.mem_cons_of_mem _ hmem, hc⟩
      · rintro (h | ⟨hmem, c, hc⟩)
        · exact Or.inl h
        · rcases List.mem_cons.mp hmem with rfl | hmem
          · rw [hf] at hc; cases hc
          · exact Or.inr ⟨hmem, c, hc⟩
    | readable c =>
      rw [mem_keys_dictSet]
      constructor
      · rintro ((h | rfl) | ⟨hmem, hc⟩)
        · exact Or.inl h
        · exact Or.inr ⟨List.mem_cons_self _ _, c, hf⟩
        · exact Or.inr ⟨List.mem_cons_of_mem _ hmem, hc⟩
      · rintro (h | ⟨hmem, c', hc⟩)
        · exact Or.inl (Or.inl h)
        · rcases List.mem_cons.mp hmem with rfl | hmem
          · exact Or.inl (Or.inr rfl)
          · exact Or.inr ⟨hmem, c', hc⟩

theorem bound_readStep_fold (fs : String → FileState) (maxBytes : Nat)
    (located : List String) :
    ∀ (acc : List (String × String) × List String) (pc : String × String),
      pc ∈ (located.foldl (readStep fs maxBytes) acc).1 →
      pc ∈ acc.1 ∨ pc.2.data.length ≤ maxBytes + TRUNCATION_MARKER.data.length := by
  induction located with
  | nil => intro acc pc h; exact Or.inl h
  | cons path rest ih =>
    intro acc pc h
    rw [List.foldl_cons] at h
    rcases ih _ pc h with h' | h'
    · revert h'
      unfold readStep
      cases hf : fs path with
      | absent => exact Or.inl
      | unreadable => exact Or.inl
      | readable content =>
        intro h'
        rcases mem_dictSet _ _ _ _ h' with h'' | h''
        · exact Or.inl h''
        · right
          rw [h'']
          by_cases hlen : (content.data.take (maxBytes + 1)).length > maxBytes
          · simp only [if_pos hlen]
            show ((content.data.take (maxBytes + 1)).take maxBytes
              ++ TRUNCATION_MARKER.data).length ≤ _
            rw [List.length_append]
            have : ((content.data.take (maxBytes + 1)).take maxBytes).length ≤ maxBytes :=
              le_trans (List.length_take_le _ _) (le_refl _)
            omega
          · simp only [if_neg hlen]
            show (content.data.take (maxBytes + 1)).length ≤ _
            omega
    · exact Or.inr h'

/-- C9: the source loader returns a content entry for exactly the located
paths that exist and are readable (missing and unreadable paths are
skipped, never fatal), and every returned payload is bounded by the byte
threshold plus the truncation-marker length, regardless of on-disk size. -/
theorem C9_source_loading_contract (fs : String → FileState) (maxBytes : Nat)
    (located : List String) :
    (∀ p, p ∈ (code_reader_node fs maxBytes located).1.map Prod.fst ↔
       (p ∈ located ∧ ∃ c, fs p = .readable c)) ∧
    (∀ pc, pc ∈ (code_reader_node fs maxBytes located).1 →
       pc.2.data.length ≤ maxBytes + TRUNCATION_MARKER.data.length) := by
  constructor
  · intro p
    unfold code_reader_node
    rw [mem_keys_readStep_fold]
    simp
  · intro pc h
    unfold code_reader_node at h
    rcases bound_readStep_fold fs maxBytes located _ pc h with h' | h'
    · cases h'
    · exact h'

/-- Witness for C9: a concrete filesystem with one readable (oversized) file
and one missing file; the readable one is present in the result. -/
theorem C9_source_loading_contract_witness :
    "/a" ∈ (code_reader_node
      (fun p => if p = "/a" then .readable "abcdefgh" else .absent) 4
      ["/a", "/b"]).1.map Prod.fst :=
  ((C9_source_loading_contract
      (fun p => if p = "/a" then .readable "abcdefgh" else .absent) 4
      ["/a", "/b"]).1 "/a").mpr ⟨by decide, "abcdefgh", by rfl⟩

/-! ### Diff-splitting and publish-transaction lemmas -/

theorem devnull_not_key_splitStep_fold (sections : List (List Char)) :
    ∀ acc : List (String × String), "/dev/null" ∉ acc.map Prod.fst →
      "/dev/null" ∉ (sections.foldl splitStep acc).map Prod.fst := by
  induction sections with
  | nil => intro acc h; exact h
  | cons sec rest ih =>
    intro acc h
    rw [List.foldl_cons]
    apply ih
    unfold splitStep
    split
    · exact h
    · dsimp only
      split
      · exact h
      · rename_i hd
        intro hmem
        rcases (mem_keys_dictSet _ _ _ _).mp hmem with h1 | h1
        · exact h h1
        · exact hd h1.symm

theorem mem_dedup_fold (l : List String) :
    ∀ (acc : List String) (x : String),
      x ∈ l.foldl (fun acc x => if acc.contains x then acc else acc ++ [x]) acc →
      x ∈ acc ∨ x ∈ l := by
  induction l with
  | nil => intro acc x h; exact Or.inl h
  | cons y rest ih =>
    intro acc x h
    rw [List.foldl_cons] at h
    rcases ih _ x h with h1 | h1
    · by_cases hy : acc.contains y
      · rw [if_pos hy] at h1; exact Or.inl h1
      · rw [if_neg hy] at h1
        rcases List.mem_append.mp h1 with h2 | h2
        · exact Or.inl h2
        · simp only [List.mem_singleton] at h2
          exact Or.inr (h2 ▸ List.mem_cons_self _ _)
    · exact Or.inr (List.mem_cons_of_mem _ h1)

theorem devnull_not_mem_parseStep_fold (lines : List String) :
    ∀ acc : List String, "/dev/null" ∉ acc →
      "/dev/null" ∉ lines.foldl parseStep acc := by
  induction lines with
  | nil => intro acc h; exact h
  | cons ln rest ih =>
    intro acc h
    rw [List.foldl_cons]
    apply ih
    unfold parseStep
    split
    · exact h
    · dsimp only
      split
      · exact h
      · rename_i hd
        intro hmem
        rcases List.mem_append.mp hmem with h1 | h1
        · exact h h1
        · simp only [List.mem_singleton] at h1
          exact hd h1.symm

theorem commitLoop_committed_subset (pf : Platform) :
    ∀ (blocks : List (String × String)) (writes : List (Option GhError)) (st : GhState),
      (loopState (commitLoop pf blocks writes st)).committed.map Prod.fst ⊆
        st.committed.map Prod.fst ++ blocks.map Prod.fst := by
  intro blocks
  induction blocks with
  | nil =>
    intro writes st
    simp [commitLoop, loopState]
  | cons pb rest ih =>
    intro writes st
    obtain ⟨path, block⟩ := pb
    show (loopState (commitLoop pf ((path, block) :: rest) writes st)).committed.map Prod.fst ⊆ _
    unfold commitLoop
    cases hg : get_file_sha_and_content (pf.getFile path) with
    | error e =>
      simp only [loopState]
      intro x hx
      exact List.mem_append.mpr (Or.inl hx)
    | ok sc =>
      obtain ⟨sha, content⟩ := sc
      match writes with
      | some e :: ws =>
        simp only [loopState]
        intro x hx
        exact List.mem_append.mpr (Or.inl hx)
      | [] =>
        intro x hx
        have := ih [] { st with committed := st.committed ++
          [(path, apply_patch_to_content content block)] } hx
        simp only [List.map_append, List.map_cons] at this ⊢
        rcases List.mem_append.mp this with h1 | h1
        · rcases List.mem_append.mp h1 with h2 | h2
          · exact List.mem_append.mpr (Or.inl h2)
          · simp only [List.map_cons, List.map_nil, List.mem_singleton] at h2
            exact List.mem_append.mpr (Or.inr (h2 ▸ List.mem_cons_self _ _))
        · exact List.mem_append.mpr (Or.inr (List.mem_cons_of_mem _ h1))
      | none :: ws =>
        intro x hx
        have := ih ws { st with committed := st.committed ++
          [(path, apply_patch_to_content content block)] } hx
        simp only [List.map_append, List.map_cons] at this ⊢
        rcases List.mem_append.mp this with h1 | h1
        · rcases List.mem_append.mp h1 with h2 | h2
          · exact List.mem_append.mpr (Or.inl h2)
          · simp only [List.map_cons, List.map_nil, List.mem_singleton] at h2
            exact List.mem_append.mpr (Or.inr (h2 ▸ List.mem_cons_self _ _))
        · exact List.mem_append.mpr (Or.inr (List.mem_cons_of_mem _ h1))

/-- C3 counterexample: on a diff whose only section has old-file path
`/dev/null`, the per-file split is empty — the section is dropped wholly,
so the paired `+++` path (`b/new.ts`) is never a write target: a publish
run over this patch commits nothing (yet still opens a PR). -/
theorem C3_counterexample :
    split_diff_by_file devNullPatch = [] ∧
    (pr_creator_node allOkPlatform (some "t") (some "o/r") 5 3 devNullPatch).2.committed
      = [] ∧
    (pr_creator_node allOkPlatform (some "t") (some "o/r") 5 3 devNullPatch).2.prOpened
      = some "https://example.com/pr/1" :=
  ⟨rfl, rfl, rfl⟩

/-- C3 amended: a file section whose old-file path is `/dev/null` is
excluded both from the touched-file list (`_parse_diff_files`) and from the
per-file blocks used for publishing (`_split_diff_by_file`); since every
committed path comes from those block keys — the `+++` path of a section is
never consulted — the new-file path of a `/dev/null` section is never
written. -/
theorem C3_devnull_sections_never_written (patch : String) :
    "/dev/null" ∉ (split_diff_by_file patch).map Prod.fst ∧
    "/dev/null" ∉ parse_diff_files patch ∧
    (∀ (pf : Platform) (token repo : Option String) (now issue : Nat),
      (pr_creator_node pf token repo now issue patch).2.committed.map Prod.fst ⊆
        (split_diff_by_file (pyStrip patch)).map Prod.fst) := by
  refine ⟨?_, ?_, ?_⟩
  · exact devnull_not_key_splitStep_fold _ [] (by simp)
  · unfold parse_diff_files pyDedup
    intro hmem
    rcases mem_dedup_fold _ [] _ hmem with h | h
    · cases h
    · exact devnull_not_mem_parseStep_fold _ [] (by simp) h
  · intro pf token repo now issue
    unfold pr_creator_node
    by_cases h1 : pyStrip patch = ""
    · simp [h1]
    · rw [if_neg h1]
      by_cases h2 : token.isNone || repo.isNone
      · rw [if_pos h2]; simp
      · rw [if_neg h2]
        split
        · simp
        · split
          · simp
          · have key := commitLoop_committed_subset pf
              (split_diff_by_file (pyStrip patch)) pf.writes
              { branches := ["ai-fix/issue-" ++ toString issue ++ "-" ++ toString now]
                committed := [], prOpened := none }
            split
            · rename_i e2 st2 heq
              rw [heq] at key
              simp only [loopState] at key
              simpa using key
            · rename_i st2 heq
              rw [heq] at key
              simp only [loopState] at key
              split
              · simpa using key
              · simpa using key

/-- Witness for C3: the exclusion instantiated on the concrete three-file
patch and the failing platform. -/
theorem C3_devnull_sections_never_written_witness :
    "/dev/null" ∉ (split_diff_by_file threeFilePatch).map Prod.fst ∧
    (pr_creator_node failSecondPlatform (some "t") (some "o/r") 1000 7
      threeFilePatch).2.committed.map Prod.fst ⊆
      (split_diff_by_file (pyStrip threeFilePatch)).map Prod.fst :=
  ⟨(C3_devnull_sections_never_written threeFilePatch).1,
   (C3_devnull_sections_never_written threeFilePatch).2.2 failSecondPlatform
     (some "t") (some "o/r") 1000 7⟩

theorem commitLoop_fail_at (pf : Platform)
    (hget : ∀ p e', get_file_sha_and_content (pf.getFile p) ≠ .error e') :
    ∀ (k : Nat) (blocks : List (String × String)) (e : GhError)
      (rest : List (Option GhError)) (st : GhState),
      k < blocks.length →
      commitLoop pf blocks (List.replicate k none ++ some e :: rest) st =
        .error (e, { st with committed := st.committed ++
          (blocks.take k).map (fun pb =>
            (pb.1, apply_patch_to_content (fetchedContent pf pb.1) pb.2)) }) := by
  intro k
  induction k with
  | zero =>
    intro blocks e rest st hk
    cases blocks with
    | nil => simp at hk
    | cons pb bs =>
      obtain ⟨path, block⟩ := pb
      unfold commitLoop
      split
      · rename_i e' hg
        exact absurd hg (hget path e')
      · rename_i sha content hg
        simp only [List.replicate, List.nil_append]
        simp
  | succ k ih =>
    intro blocks e rest st hk
    cases blocks with
    | nil => simp at hk
    | cons pb bs =>
      obtain ⟨path, block⟩ := pb
      unfold commitLoop
      split
      · rename_i e' hg
        exact absurd hg (hget path e')
      · rename_i sha content hg
        have hfc : fetchedContent pf path = content := by
          unfold fetchedContent
          rw [hg]
        show commitLoop pf bs (List.replicate k none ++ some e :: rest)
          { st with committed := st.committed ++
            [(path, apply_patch_to_content content block)] } = _
        rw [ih bs e rest _ (by simpa using hk)]
        simp [List.take_succ_cons, List.append_assoc, hfc]

/-- C4 counterexample: publish fails on the second of three files.  The
branch and exactly the first file's commit remain, but the reported failure
state — the returned log — is only the platform error text: it names
neither the branch nor the last successfully committed file, contradicting
the claim's reporting clause. -/
theorem C4_counterexample :
    (pr_creator_node failSecondPlatform (some "t") (some "o/r") 1000 7
      threeFilePatch).1.logs = ["GitHub API error 500: boom"] ∧
    strContains "GitHub API error 500: boom" "ai-fix/issue-7-1000" = false ∧
    strContains "GitHub API error 500: boom" "f1" = false ∧
    (pr_creator_node failSecondPlatform (some "t") (some "o/r") 1000 7
      threeFilePatch).2.branches = ["ai-fix/issue-7-1000"] ∧
    ((pr_creator_node failSecondPlatform (some "t") (some "o/r") 1000 7
      threeFilePatch).2.committed).map Prod.fst = ["f1"] :=
  ⟨rfl, rfl, rfl, rfl, rfl⟩

/-- C4 amended: when the publish transaction fails with a platform error on
the write of file `k` (files `0..k-1` committed), the created branch and
exactly those `k` commits remain — nothing is retried or rolled back — and
the failure is reported as a single log containing only the platform error
status and message (the branch name and committed files are printed to
stdout but are not part of the returned failure state). -/
theorem C4_partial_failure_no_rollback (pf : Platform) (token repo : String)
    (now issue : Nat) (patch : String) (k : Nat) (e : GhError)
    (rest : List (Option GhError))
    (h1 : pyStrip patch ≠ "")
    (hhead : ∃ s, pf.headSha = Except.ok s)
    (href : pf.createRefRes = none)
    (hget : ∀ p e', get_file_sha_and_content (pf.getFile p) ≠ .error e')
    (hw : pf.writes = List.replicate k none ++ some e :: rest)
    (hk : k < (split_diff_by_file (pyStrip patch)).length) :
    (pr_creator_node pf (some token) (some repo) now issue patch).1
      = ⟨none, [ghErrorMsg e]⟩ ∧
    (pr_creator_node pf (some token) (some repo) now issue patch).2.branches
      = ["ai-fix/issue-" ++ toString issue ++ "-" ++ toString now] ∧
    (pr_creator_node pf (some token) (some repo) now issue patch).2.committed.map
      Prod.fst = ((split_diff_by_file (pyStrip patch)).map Prod.fst).take k := by
  obtain ⟨s, hs⟩ := hhead
  unfold pr_creator_node
  rw [if_neg h1, if_neg (by simp), hs, href, hw,
    commitLoop_fail_at pf hget k _ e rest _ hk]
  refine ⟨rfl, rfl, ?_⟩
  simp only [List.map_append, List.map_map, List.map_take, List.nil_append]
  congr 1

/-- Witness for C4: the amended statement instantiated on the concrete
platform that fails on the second write. -/
theorem C4_partial_failure_no_rollback_witness :
    (pr_creator_node failSecondPlatform (some "t") (some "o/r") 1000 7
      threeFilePatch).1 = ⟨none, [ghErrorMsg ⟨500, "boom"⟩]⟩ ∧
    (pr_creator_node failSecondPlatform (some "t") (some "o/r") 1000 7
      threeFilePatch).2.branches = ["ai-fix/issue-7-1000"] ∧
    (pr_creator_node failSecondPlatform (some "t") (some "o/r") 1000 7
      threeFilePatch).2.committed.map Prod.fst
      = ((split_diff_by_file (pyStrip threeFilePatch)).map Prod.fst).take 1 :=
  C4_partial_failure_no_rollback failSecondPlatform "t" "o/r" 1000 7
    threeFilePatch 1 ⟨500, "boom"⟩ [none]
    (by decide) ⟨"abc123", rfl⟩ rfl
    (fun p e' => by simp [failSecondPlatform, get_file_sha_and_content])
    rfl (by decide)

/-! ### Score-dictionary lemmas -/

theorem lookup_map_valUpdate (d : ScoreDict) (f : String → Nat → Nat) (p : String) :
    (d.map (fun kv => (kv.1, f kv.1 kv.2))).lookup p = (d.lookup p).map (f p) := by
  induction d with
  | nil => rfl
  | cons kv t ih =>
    obtain ⟨a, b⟩ := kv
    by_cases h : p = a
    · subst h
      simp [List.lookup]
    · simp [List.lookup, beq_false_of_ne h, ih]

theorem any_key_iff (d : ScoreDict) (k : String) :
    (d.any (fun kv => kv.1 = k) = true) ↔ ∃ b, d.lookup k = some b := by
  induction d with
  | nil => simp [List.lookup]
  | cons kv t ih =>
    obtain ⟨a, b⟩ := kv
    by_cases h : k = a
    · subst h
      simp [List.lookup]
    · simp [List.lookup, beq_false_of_ne h, Ne.symm h, ih]

theorem lookup_append_none (d xs : ScoreDict) (k : String)
    (h : d.lookup k = none) : (d ++ xs).lookup k = xs.lookup k := by
  induction d with
  | nil => rfl
  | cons kv t ih =>
    obtain ⟨a, b⟩ := kv
    by_cases hk : k = a
    · subst hk
      simp [List.lookup] at h
    · simp only [List.cons_append, List.lookup, beq_false_of_ne hk]
      simp only [List.lookup, beq_false_of_ne hk] at h
      exact ih h

theorem lookup_append_some (d xs : ScoreDict) (k : String) (b : Nat)
    (h : d.lookup k = some b) : (d ++ xs).lookup k = some b := by
  induction d with
  | nil => simp [List.lookup] at h
  | cons kv t ih =>
    obtain ⟨a, c⟩ := kv
    by_cases hk : k = a
    · subst hk
      simp [List.lookup] at h ⊢
      exact h
    · simp only [List.cons_append, List.lookup, beq_false_of_ne hk]
      simp only [List.lookup, beq_false_of_ne hk] at h
      exact ih h

theorem dGet_dAdd (d : ScoreDict) (k k' : String) (v : Nat) :
    dGet (dAdd d k v) k' = dGet d k' + (if k' = k then v else 0) := by
  unfold dAdd dGet
  by_cases hmem : d.any (fun kv => kv.1 = k)
  · rw [if_pos hmem]
    have hbridge : d.map (fun kv => if kv.1 = k then (kv.1, kv.2 + v) else kv)
        = d.map (fun kv => (kv.1, if kv.1 = k then kv.2 + v else kv.2)) := by
      apply List.map_congr_left
      intro a _
      by_cases h : a.1 = k <;> simp [h]
    rw [hbridge, lookup_map_valUpdate d (fun a b => if a = k then b + v else b) k']
    by_cases h : k' = k
    · subst h
      obtain ⟨b, hb⟩ := (any_key_iff d k').mp hmem
      rw [hb]
      simp
    · simp only [if_neg h]
      cases d.lookup k' <;> simp [h]
  · rw [if_neg hmem]
    by_cases h : k' = k
    · subst h
      have hnone : d.lookup k' = none := by
        cases hl : d.lookup k' with
        | none => rfl
        | some b => exact absurd ((any_key_iff d k').mpr ⟨b, hl⟩) (by simpa using hmem)
      rw [lookup_append_none _ _ _ hnone, hnone]
      simp [List.lookup]
    · cases hl : d.lookup k' with
      | none =>
        rw [lookup_append_none _ _ _ hl]
        simp [List.lookup, beq_false_of_ne h, h]
      | some b =>
        rw [lookup_append_some _ _ _ _ hl]
        simp [h]

theorem dGet_foldl_dAdd_w2 (entries : List (String × Nat)) :
    ∀ (d : ScoreDict) (p : String),
      dGet (entries.foldl (fun s pc => dAdd s pc.1 (pc.2 * 2)) d) p
        = dGet d p + sumVals entries p * 2 := by
  induction entries with
  | nil => intro d p; simp [sumVals]
  | cons pc t ih =>
    intro d p
    rw [List.foldl_cons, ih, dGet_dAdd]
    unfold sumVals at *
    by_cases h : p = pc.1
    · simp [h.symm, Nat.add_mul, Nat.add_assoc, Nat.add_comm, Nat.add_left_comm]
    · have : ¬ pc.1 = p := fun hh => h hh.symm
      simp [h, this]

theorem dGet_le_foldl_dAdd (entries : List (String × Nat)) :
    ∀ (d : ScoreDict) (p : String),
      dGet d p ≤ dGet (entries.foldl (fun s pc => dAdd s pc.1 pc.2) d) p := by
  induction entries with
  | nil => intro d p; exact le_refl _
  | cons pc t ih =>
    intro d p
    rw [List.foldl_cons]
    calc dGet d p ≤ dGet (dAdd d pc.1 pc.2) p := by rw [dGet_dAdd]; omega
    _ ≤ _ := ih _ p

theorem uniqKeys_dAdd (d : ScoreDict) (k : String) (v : Nat) (h : UniqKeys d) :
    UniqKeys (dAdd d k v) := by
  unfold dAdd UniqKeys at *
  by_cases hmem : d.any (fun kv => kv.1 = k)
  · rw [if_pos hmem]
    have hkeys : (d.map (fun kv => if kv.1 = k then (kv.1, kv.2 + v) else kv)).map Prod.fst
        = d.map Prod.fst := by
      rw [List.map_map]
      apply List.map_congr_left
      intro a _
      by_cases h2 : a.1 = k <;> simp [h2]
    rw [hkeys]
    exact h
  · rw [if_neg hmem, List.map_append]
    have hk : k ∉ d.map Prod.fst := by
      intro hmem2
      rcases List.mem_map.mp hmem2 with ⟨a, ha, hak⟩
      exact hmem (List.any_eq_true.mpr ⟨a, ha, by simp [hak]⟩)
    simp only [List.map_cons, List.map_nil]
    exact List.Nodup.append h (List.nodup_singleton k) (by simpa using hk)

theorem uniqKeys_foldl_dAdd1 (paths : List String) :
    ∀ d : ScoreDict, UniqKeys d →
      UniqKeys (paths.foldl (fun h p => dAdd h p 1) d) := by
  induction paths with
  | nil => intro d h; exact h
  | cons p t ih =>
    intro d h
    rw [List.foldl_cons]
    exact ih _ (uniqKeys_dAdd d p 1 h)

theorem uniqKeys_index_search (sy : List String)
    (idx : List (String × List String)) : UniqKeys (index_search sy idx) := by
  unfold index_search
  have main : ∀ (l : List String) (d : ScoreDict), UniqKeys d →
      UniqKeys (l.foldl (fun hits sym =>
        ((idx.lookup sym).getD []).foldl (fun h p => dAdd h p 1) hits) d) := by
    intro l
    induction l with
    | nil => intro d h; exact h
    | cons s t ih =>
      intro d h
      rw [List.foldl_cons]
      exact ih _ (uniqKeys_foldl_dAdd1 _ d h)
  exact main sy [] (by simp [UniqKeys])

theorem sumVals_zero_of_not_mem (d : ScoreDict) (p : String)
    (h : p ∉ d.map Prod.fst) : sumVals d p = 0 := by
  induction d with
  | nil => rfl
  | cons kv t ih =>
    unfold sumVals at *
    simp only [List.map_cons, List.mem_cons] at h
    push_neg at h
    have : ¬ kv.1 = p := fun hh => h.1 hh.symm
    simp only [List.map_cons, List.sum_cons, if_neg this]
    rw [Nat.zero_add]
    exact ih h.2

theorem sumVals_eq_dGet (d : ScoreDict) (h : UniqKeys d) (p : String) :
    sumVals d p = dGet d p := by
  induction d with
  | nil => rfl
  | cons kv t ih =>
    obtain ⟨a, b⟩ := kv
    have hnd := List.nodup_cons.mp h
    by_cases hp : a = p
    · subst hp
      have hz : sumVals t a = 0 := sumVals_zero_of_not_mem t a (by simpa using hnd.1)
      unfold sumVals dGet at *
      simp [List.lookup, hz]
    · unfold sumVals dGet at *
      simp only [List.map_cons, List.sum_cons, if_neg hp, List.lookup,
        beq_false_of_ne (fun hh => hp hh.symm), Nat.zero_add]
      exact ih hnd.2

theorem dGet_indexPass (sy : List String) (idx : List (String × List String))
    (d : ScoreDict) (p : String) :
    dGet (indexPass sy idx d) p = dGet d p + 2 * dGet (index_search sy idx) p := by
  unfold indexPass
  by_cases h : sy ≠ []
  · rw [if_pos h, dGet_foldl_dAdd_w2, sumVals_eq_dGet _ (uniqKeys_index_search sy idx)]
    omega
  · rw [if_neg h]
    push_neg at h
    subst h
    simp [index_search, dGet, List.lookup]

theorem dGet_le_hintMap (sc : ScoreDict) (cond : String → Bool) (p : String) :
    dGet sc p ≤ dGet (sc.map (fun pv => if cond pv.1 then (pv.1, pv.2 + 1) else pv)) p := by
  have hbridge : sc.map (fun pv => if cond pv.1 then (pv.1, pv.2 + 1) else pv)
      = sc.map (fun pv => (pv.1, if cond pv.1 then pv.2 + 1 else pv.2)) := by
    apply List.map_congr_left
    intro a _
    by_cases h : cond a.1 <;> simp [h]
  unfold dGet
  rw [hbridge, lookup_map_valUpdate sc (fun a b => if cond a then b + 1 else b) p]
  cases sc.lookup p with
  | none => simp
  | some b =>
    by_cases h : cond p <;> simp [h]

theorem dGet_le_hintPass (hints : List String) :
    ∀ (d : ScoreDict) (p : String), dGet d p ≤ dGet (hintPass hints d) p := by
  unfold hintPass
  induction hints with
  | nil => intro d p; exact le_refl _
  | cons h t ih =>
    intro d p
    rw [List.foldl_cons]
    exact le_trans
      (dGet_le_hintMap d (fun k => containsSub (normSlash k).data (normSlash h).data) p)
      (ih _ p)

/-- C5: for every symbol-index lookup, a file whose index entries match N of
the supplied symbol signals receives at least 2 × N points from the index
strategy alone, whatever the lexical search and path hints contribute; in
particular Scenario A — index `{"Foo": ["/a.ts"]}`, signals `["Foo"]`,
lexical search contributing nothing — ranks exactly `["/a.ts"]`. -/
theorem C5_symbol_index_weight :
    (∀ (rg : String → RgOutcome) (idx : List (String × List String))
       (kw sy fh : List String) (p : String),
       2 * dGet (index_search sy idx) p ≤ dGet (locatorScores rg idx kw sy fh) p) ∧
    file_locator_node (fun _ => .missing) [("Foo", ["/a.ts"])] [] ["Foo"] [] 5
      = ["/a.ts"] := by
  constructor
  · intro rg idx kw sy fh p
    unfold locatorScores
    calc 2 * dGet (index_search sy idx) p
        ≤ dGet (rgPass rg (pyDedup (sy ++ kw)) []) p
            + 2 * dGet (index_search sy idx) p := by omega
      _ = dGet (indexPass sy idx (rgPass rg (pyDedup (sy ++ kw)) [])) p :=
            (dGet_indexPass sy idx _ p).symm
      _ ≤ _ := dGet_le_hintPass fh _ p
  · rfl

/-! ### Stable-sort lemmas -/

theorem insertDesc_filter (x : String × Nat) (s : Nat) :
    ∀ l : List (String × Nat),
      (insertDesc x l).filter (fun pv => pv.2 == s)
        = if x.2 == s then x :: l.filter (fun pv => pv.2 == s)
          else l.filter (fun pv => pv.2 == s) := by
  intro l
  induction l with
  | nil =>
    by_cases hx : (x.2 == s) = true
    · simp [insertDesc, List.filter_cons, hx]
    · simp [insertDesc, List.filter_cons, hx]
  | cons y ys ih =>
    unfold insertDesc
    by_cases hy : y.2 > x.2
    · rw [if_pos hy]
      by_cases hx : (x.2 == s) = true
      · have hxe : x.2 = s := by simpa using hx
        have hys : (y.2 == s) = false := by
          simp only [beq_eq_false_iff_ne]
          omega
        simp [List.filter_cons, hys, ih, hx]
      · simp [List.filter_cons, ih, hx]
    · rw [if_neg hy]
      by_cases hx : (x.2 == s) = true
      · simp [List.filter_cons, hx]
      · simp [List.filter_cons, hx]

theorem pySortedDesc_filter_stable (s : Nat) :
    ∀ l : List (String × Nat),
      (pySortedDesc l).filter (fun pv => pv.2 == s)
        = l.filter (fun pv => pv.2 == s) := by
  intro l
  induction l with
  | nil => rfl
  | cons x xs ih =>
    unfold pySortedDesc
    rw [insertDesc_filter]
    by_cases hx : (x.2 == s) = true
    · simp [List.filter_cons, hx, ih]
    · simp [List.filter_cons, hx, ih]

/-- C6: the ranked list is capped at `maxFiles`; two runs over equal oracles
(an unchanged filesystem and index) return identical orderings; the sort is
stable — for every score, the entries carrying that score appear in exactly
their discovery order — and on a concrete tie the output follows discovery
order `["/z.ts", "/a.ts"]`, not path lexical order. -/
theorem C6_ranked_cap_determinism_stability :
    (∀ (rg : String → RgOutcome) (idx : List (String × List String))
       (kw sy fh : List String) (maxFiles : Nat),
       (file_locator_node rg idx kw sy fh maxFiles).length ≤ maxFiles) ∧
    (∀ (rg rg' : String → RgOutcome) (idx : List (String × List String))
       (kw sy fh : List String) (maxFiles : Nat), (∀ t, rg t = rg' t) →
       file_locator_node rg idx kw sy fh maxFiles
         = file_locator_node rg' idx kw sy fh maxFiles) ∧
    (∀ (l : List (String × Nat)) (s : Nat),
       (pySortedDesc l).filter (fun pv => pv.2 == s)
         = l.filter (fun pv => pv.2 == s)) ∧
    file_locator_node (fun _ => .missing) [("Foo", ["/z.ts", "/a.ts"])] [] ["Foo"] [] 5
      = ["/z.ts", "/a.ts"] := by
  refine ⟨?_, ?_, ?_, rfl⟩
  · intro rg idx kw sy fh maxFiles
    unfold file_locator_node
    exact List.length_take_le _ _
  · intro rg rg' idx kw sy fh maxFiles h
    rw [funext h]
  · intro l s
    exact pySortedDesc_filter_stable s l

/-- Witness for C6: determinism applied at a concrete oracle pair. -/
theorem C6_ranked_cap_determinism_stability_witness :
    file_locator_node (fun _ => .missing) [("Foo", ["/a.ts"])] ["k"] ["Foo"] [] 5
      = file_locator_node (fun _ => .missing) [("Foo", ["/a.ts"])] ["k"] ["Foo"] [] 5 :=
  C6_ranked_cap_determinism_stability.2.1 (fun _ => .missing) (fun _ => .missing)
    [("Foo", ["/a.ts"])] ["k"] ["Foo"] [] 5 (fun _ => rfl)

theorem rgPass_failure_noop (rg : String → RgOutcome)
    (h : ∀ t, rg_search (rg t) = []) (terms : List String) :
    ∀ d, rgPass rg terms d = d := by
  unfold rgPass
  induction terms with
  | nil => intro d; rfl
  | cons t ts ih =>
    intro d
    rw [List.foldl_cons, h t, List.foldl_nil]
    exact ih d

/-- C8: a missing lexical-search tool or a per-call timeout makes that
term's search return the empty contribution (zero for every file, and in the
embedding no exception can escape — `_rg_search` is total); consequently the
locate step behaves exactly as if the tool had run and found nothing, still
returning results driven solely by the symbol index and path hints, shown on
Scenario E's concrete data. -/
theorem C8_lexical_failure_degrades_gracefully :
    (∀ o : RgOutcome, o = .missing ∨ o = .timeout → rg_search o = []) ∧
    (∀ (rg : String → RgOutcome) (idx : List (String × List String))
       (kw sy fh : List String) (maxFiles : Nat),
       (∀ t, rg t = .missing ∨ rg t = .timeout) →
       file_locator_node rg idx kw sy fh maxFiles
         = file_locator_node (fun _ => .ok []) idx kw sy fh maxFiles) ∧
    file_locator_node (fun _ => .missing) [("Bar", ["/src/b.ts"])] ["kw"] ["Bar"] ["src"] 5
      = ["/src/b.ts"] := by
  refine ⟨?_, ?_, rfl⟩
  · rintro o (rfl | rfl) <;> rfl
  · intro rg idx kw sy fh maxFiles h
    unfold file_locator_node locatorScores
    rw [rgPass_failure_noop rg
          (fun t => by rcases h t with h' | h' <;> rw [h'] <;> rfl) (pyDedup (sy ++ kw)) [],
        rgPass_failure_noop (fun _ => .ok [])
          (fun _ => rfl) (pyDedup (sy ++ kw)) []]

/-- Witness for C8: the degraded-oracle equivalence at concrete data. -/
theorem C8_lexical_failure_degrades_gracefully_witness :
    file_locator_node (fun _ => .missing) [("Foo", ["/a.ts"])] [] ["Foo"] [] 5
      = file_locator_node (fun _ => .ok []) [("Foo", ["/a.ts"])] [] ["Foo"] [] 5 :=
  C8_lexical_failure_degrades_gracefully.2.1 (fun _ => .missing)
    [("Foo", ["/a.ts"])] [] ["Foo"] [] 5 (fun _ => Or.inl rfl)

end JARVIS
